import Mathlib

/-!
Verification development for the DataProcessing repository (CoSSMic PV and
appliance time-series pipeline). The Python sources are shallowly embedded
over exact rationals: pure functions become Lean functions, list mutation
becomes explicit state passing, and Python runtime errors (IndexError on
empty-list indexing, ValueError from max() on an empty sequence) become
Option results, with none standing for the raised exception.
-/

namespace DataProcessing

/-- Python builtin max over a list. Python raises ValueError on an empty
sequence; the 0 returned for [] here is junk that no theorem observes, since
every call site in the embedded code receives a non-empty list or is itself
modelled as raising. -/
def pyMax : List ℚ → ℚ
  | [] => 0
  | x :: xs => xs.foldl max x

/-- Python builtin min over a list, with the same empty-list convention as
pyMax. -/
def pyMin : List ℚ → ℚ
  | [] => 0
  | x :: xs => xs.foldl min x

/- ---------------------------------------------------------------------
models/PV.py: cumulative / non-cumulative profile conversions (C9)
--------------------------------------------------------------------- -/

/-- Loop body of PV.non_cumulative: appends cProfile[i] - cProfile[i-1] for
i = 1..len-1, threading the previous element. -/
def diffsFrom (prev : ℚ) : List ℚ → List ℚ
  | [] => []
  | x :: xs => (x - prev) :: diffsFrom x xs

/-- PV.non_cumulative (models/PV.py lines 113-124). Python reads cProfile[0]
first and raises IndexError on an empty input; theorems therefore take
non-empty inputs and the [] branch here is never relied on. -/
def non_cumulative : List ℚ → List ℚ
  | [] => []
  | c :: cs => c :: diffsFrom c cs

/-- Loop body of PV.cumulative: appends cProfile[-1] + profile[i], threading
the running last element. -/
def sumsFrom (acc : ℚ) : List ℚ → List ℚ
  | [] => []
  | x :: xs => (acc + x) :: sumsFrom (acc + x) xs

/-- PV.cumulative (models/PV.py lines 126-137), with the same empty-input
convention as non_cumulative. -/
def cumulative : List ℚ → List ℚ
  | [] => []
  | p :: ps => p :: sumsFrom p ps

/- ---------------------------------------------------------------------
models/Appliance.py: run segmentation (C3)
--------------------------------------------------------------------- -/

/-- Loop state of Appliance.split_power_data: the accumulated finished runs,
the open run, the flat-stretch counter and the climbing flag. -/
structure SegState where
  single_runs : List (List ℚ)
  current_run : List ℚ
  off_period_length : ℕ
  climbing : Bool
deriving DecidableEq

/-- One iteration of the loop in Appliance.split_power_data (lines 47-59),
processing the adjacent pair (power_data[i], power_data[i+1]). Python reads
current_run[-1] and current_run[0] only when len(current_run) > min_duration,
so the getLastD/headD defaults are never observed. -/
def segStep (max_pause_allowed min_duration : ℕ) (max_consumption : ℚ)
    (st : SegState) (a b : ℚ) : SegState :=
  if a = b then
    { st with off_period_length := st.off_period_length + 1, climbing := false }
  else
    let st1 :=
      if !st.climbing && decide (st.off_period_length > max_pause_allowed) then
        if decide (st.current_run.length > min_duration) &&
            decide (st.current_run.getLastD 0 - st.current_run.headD 0 < max_consumption) then
          { st with single_runs := st.single_runs ++ [st.current_run], current_run := [] }
        else
          { st with current_run := [] }
      else st
    { st1 with current_run := st1.current_run ++ [a], off_period_length := 0, climbing := true }

/-- The scan over adjacent pairs of Appliance.split_power_data: the first
argument of the pair is threaded, the list holds the rest of the stream. -/
def segLoop (max_pause_allowed min_duration : ℕ) (max_consumption : ℚ)
    (st : SegState) (a : ℚ) : List ℚ → SegState
  | [] => st
  | b :: rest =>
      segLoop max_pause_allowed min_duration max_consumption
        (segStep max_pause_allowed min_duration max_consumption st a b) b rest

/-- Appliance.split_power_data (models/Appliance.py lines 30-61): the final
single_runs after scanning all adjacent sample pairs. A run still open at
stream end is never flushed. -/
def split_power_data (power : List ℚ) (max_pause_allowed min_duration : ℕ)
    (max_consumption : ℚ) : List (List ℚ) :=
  match power with
  | [] => []
  | a :: rest =>
      (segLoop max_pause_allowed min_duration max_consumption
        ⟨[], [], 0, false⟩ a rest).single_runs

/-- Body of Appliance.shrink_runs / PV.shrink_runs on one run: subtract the
first value from every value (the empty run is left alone, as in the source's
truthiness guard). -/
def shrinkRun : List ℚ → List ℚ
  | [] => []
  | x :: xs => (x :: xs).map (fun v => v - x)

/-- Appliance.shrink_runs (models/Appliance.py lines 63-69) applied to a list
of runs. -/
def shrink_runs (runs : List (List ℚ)) : List (List ℚ) := runs.map shrinkRun

/- ---------------------------------------------------------------------
models/PV.py: day segmentation, noise predicate (C2, C10)
--------------------------------------------------------------------- -/

/-- One sample of a PV stream: the CET/CEST timestamp string, the UTC
timestamp string and the power value (self.date_data_cet_cest[i],
self.date_data_utc[i], self.power_data[i]). Timestamps are the character
lists of strings of the form YYYY-MM-DD HH:MM. -/
structure PVSample where
  cet : List Char
  utc : List Char
  power : ℚ
deriving DecidableEq

/-- Python string slicing s[a:b] on a character list. -/
def pySlice (s : List Char) (a b : ℕ) : List Char := (s.drop a).take (b - a)

/-- Test d[11:13] == "00" and d[14:16] == "00" from
PV.split_power_data_by_season line 161. -/
def isMidnight (d : List Char) : Bool :=
  decide (pySlice d 11 13 = "00".toList ∧ pySlice d 14 16 = "00".toList)

/-- The eight per-season lists mutated by PV.split_power_data_by_season
(models/PV.py lines 30-39). -/
structure PVState where
  spring_runs : List (List ℚ)
  summer_runs : List (List ℚ)
  autumn_runs : List (List ℚ)
  winter_runs : List (List ℚ)
  spring_runs_start_times : List (List Char)
  summer_runs_start_times : List (List Char)
  autumn_runs_start_times : List (List Char)
  winter_runs_start_times : List (List Char)
deriving DecidableEq

/-- The empty PVState produced by PV.__init__. -/
def initPV : PVState := ⟨[], [], [], [], [], [], [], []⟩

/-- The spike / no-production scan of PV.is_noise (lines 270-277): returns
(early-return-True fired, no_prod at loop end). prev starts at run[0] and the
loop revisits every element including run[0] itself, exactly as the source. -/
def spikeScan (prev : ℚ) (no_prod : Bool) : List ℚ → Bool × Bool
  | [] => (false, no_prod)
  | v :: vs =>
      if v > prev + 1 then (true, no_prod)
      else spikeScan v (no_prod && decide (v = prev)) vs

/-- PV.is_noise (models/PV.py lines 259-286). Python reads run[0] before any
length check, so the empty run raises IndexError: modelled as none. For a
non-empty run the function is total: spike check, constant-run check, then
the length check len(run) == 1440 / minute_res (exact rational division, as
Python float division of these small integers is exact). -/
def is_noise (run : List ℚ) (minute_res : ℚ) : Option Bool :=
  match run with
  | [] => none
  | v :: vs =>
      let scanned := spikeScan v true (v :: vs)
      if scanned.1 then some true
      else if scanned.2 then some true
      else if ((v :: vs).length : ℚ) ≠ 1440 / minute_res then some true
      else some false

/-- The month dispatch of PV.split_power_data_by_season (lines 166-177):
append the completed run and its start time to the season bucket selected by
the month substring d[5:7] of the sample closing the day. A month string
matching no branch appends nowhere, as in the source's if/elif chain. -/
def appendByMonth (st : PVState) (m : List Char) (run : List ℚ)
    (start : List Char) : PVState :=
  if m = "03".toList ∨ m = "04".toList ∨ m = "05".toList then
    { st with spring_runs := st.spring_runs ++ [run],
              spring_runs_start_times := st.spring_runs_start_times ++ [start] }
  else if m = "06".toList ∨ m = "07".toList ∨ m = "08".toList then
    { st with summer_runs := st.summer_runs ++ [run],
              summer_runs_start_times := st.summer_runs_start_times ++ [start] }
  else if m = "09".toList ∨ m = "10".toList ∨ m = "11".toList then
    { st with autumn_runs := st.autumn_runs ++ [run],
              autumn_runs_start_times := st.autumn_runs_start_times ++ [start] }
  else if m = "12".toList ∨ m = "01".toList ∨ m = "02".toList then
    { st with winter_runs := st.winter_runs ++ [run],
              winter_runs_start_times := st.winter_runs_start_times ++ [start] }
  else st

/-- The sample loop of PV.split_power_data_by_season (lines 149-185). The
current run buffer and the pending UTC start time (None before the first
sample, filled from the current sample's UTC time as in lines 157-158) are
threaded; at a midnight sample the buffer is tested by is_noise and, when not
noise, appended by the month of that closing sample; the buffer then restarts
with the current sample's power value. An is_noise call on an empty buffer is
the Python IndexError, propagated as none. -/
def splitLoop (minute_res : ℚ) :
    List PVSample → List ℚ → Option (List Char) → PVState → Option PVState
  | [], _, _, st => some st
  | s :: rest, current_run, start_utc, st =>
      let start1 := start_utc.getD s.utc
      if isMidnight s.cet then
        match is_noise current_run minute_res with
        | none => none
        | some noisy =>
            splitLoop minute_res rest [s.power] (some s.utc)
              (if noisy then st
               else appendByMonth st (pySlice s.cet 5 7) current_run start1)
      else
        splitLoop minute_res rest (current_run ++ [s.power]) (some start1) st

/-- PV.shrink_runs (models/PV.py lines 190-198): rebase every run of every
season so it starts at 0. -/
def pvShrink (st : PVState) : PVState :=
  { st with spring_runs := st.spring_runs.map shrinkRun,
            summer_runs := st.summer_runs.map shrinkRun,
            autumn_runs := st.autumn_runs.map shrinkRun,
            winter_runs := st.winter_runs.map shrinkRun }

/-- PV.split_power_data_by_season (models/PV.py lines 139-188): run the
sample loop from the empty state, then rebase all kept runs. -/
def split_power_data_by_season (samples : List PVSample) (minute_res : ℚ) :
    Option PVState :=
  (splitLoop minute_res samples [] none initPV).map pvShrink

/- ---------------------------------------------------------------------
models/PV.py: envelope normalization (C4, C8)
--------------------------------------------------------------------- -/

/-- Inner envelope update of PV.normalize_and_plot_profiles (lines 77-79):
raise optimal_season_run[i] to run[i] where run[i] is larger, for i over the
indices of run. Python raises IndexError when run is longer than the
envelope; all theorems apply this to equal-length lists, where that branch is
unreachable. -/
def envelopeStep : List ℚ → List ℚ → List ℚ
  | o :: os, r :: rs => (if r > o then r else o) :: envelopeStep os rs
  | os, [] => os
  | [], _ :: _ => []

/-- The optimal season profile of PV.normalize_and_plot_profiles (lines
74-79): start from a copy of the first run and fold the pointwise update over
every run of the season. -/
def envelope (season : List (List ℚ)) (first : List ℚ) : List ℚ :=
  season.foldl envelopeStep first

/-- The per-run normalization of PV.normalize_and_plot_profiles (lines
84-89): divide by the envelope where it is non-zero, force 0 where the
envelope value is 0. Python raises IndexError when the run is longer than the
envelope; all theorems apply this to equal-length lists. -/
def normalizeRun : List ℚ → List ℚ → List ℚ
  | v :: vs, o :: os => (if o ≠ 0 then v / o else 0) :: normalizeRun vs os
  | [], _ => []
  | _ :: _, [] => []

/-- Normalization of one season in PV.normalize_and_plot_profiles: an empty
season is skipped (the continue at line 69); otherwise every run is divided
by the envelope seeded from season[0]. -/
def normalizeSeason (season : List (List ℚ)) : List (List ℚ) :=
  match season with
  | [] => []
  | r0 :: _ => season.map (fun r => normalizeRun r (envelope season r0))

/-- PV.normalize_and_plot_profiles (models/PV.py lines 41-98) with the chart
drawing stripped. The hours axis at line 57 reads self.spring_runs[0] before
any season is processed, so the call raises IndexError (none) whenever the
spring bucket is empty, regardless of the other seasons. -/
def normalize_and_plot_profiles (st : PVState) : Option PVState :=
  match st.spring_runs with
  | [] => none
  | _ :: _ =>
      some { st with spring_runs := normalizeSeason st.spring_runs,
                     summer_runs := normalizeSeason st.summer_runs,
                     autumn_runs := normalizeSeason st.autumn_runs,
                     winter_runs := normalizeSeason st.winter_runs }

/- ---------------------------------------------------------------------
models/PV_Season.py and Categorization_PV.py: weather limits (C6, C7)
--------------------------------------------------------------------- -/

/-- The accumulation loop of PV_Season.accumulated_weather_limits (lines
77-78): n more limits, each the previous one plus group_size. -/
def limitsTail (last group_size : ℚ) : ℕ → List ℚ
  | 0 => []
  | k + 1 => (last + group_size) :: limitsTail (last + group_size) group_size k

/-- PV_Season.accumulated_weather_limits (models/PV_Season.py lines 58-81):
none when the season has no runs; otherwise the minimum accumulated value,
n_weather_types - 1 equal steps, and the maximum accumulated value appended
last. Callers always pass n_weather_types = 4; Python would raise
ZeroDivisionError for 0, which no theorem exercises. -/
def accumulated_weather_limits (runs : List (List ℚ)) (n_weather_types : ℕ) :
    Option (List ℚ) :=
  match runs with
  | [] => none
  | _ :: _ =>
      let accumulated_values := runs.map List.sum
      let group_size :=
        (pyMax accumulated_values - pyMin accumulated_values) / n_weather_types
      some ((pyMin accumulated_values ::
        limitsTail (pyMin accumulated_values) group_size (n_weather_types - 1)) ++
        [pyMax accumulated_values])

/-- The four weather buckets of Categorization_PV.assign_weather_types. -/
inductive Weather
  | rainy
  | cloudy
  | partially_cloudy
  | sunny
deriving DecidableEq

/-- The if/elif chain of Categorization_PV.assign_weather_types (lines
74-85) deciding the bucket of one accumulated sum. Python indexes
w_limits[0]..w_limits[4]; accumulated_weather_limits with 4 weather types
always yields five limits, so the getD defaults are never observed. -/
def assignWeather (w_limits : List ℚ) (s : ℚ) : Option Weather :=
  if w_limits.getD 0 0 ≤ s ∧ s < w_limits.getD 1 0 then some Weather.rainy
  else if w_limits.getD 1 0 ≤ s ∧ s < w_limits.getD 2 0 then some Weather.cloudy
  else if w_limits.getD 2 0 ≤ s ∧ s < w_limits.getD 3 0 then some Weather.partially_cloudy
  else if w_limits.getD 3 0 ≤ s ∧ s ≤ w_limits.getD 4 0 then some Weather.sunny
  else none

/-- The run lists of one PV_Season (models/PV_Season.py lines 26-40). -/
structure PVSeasonState where
  runs : List (List ℚ)
  runs_start_times : List (List Char)
  sunny_runs : List (List ℚ)
  partially_cloudy_runs : List (List ℚ)
  cloudy_runs : List (List ℚ)
  rainy_runs : List (List ℚ)
  sunny_runs_start_times : List (List Char)
  partially_cloudy_runs_start_times : List (List Char)
  cloudy_runs_start_times : List (List Char)
  rainy_runs_start_times : List (List Char)
deriving DecidableEq

/-- Append one run and its start time to the bucket chosen by the if/elif
chain of Categorization_PV.assign_weather_types; no branch taken appends
nowhere. -/
def assignOne (ps : PVSeasonState) (w_limits : List ℚ) (run : List ℚ)
    (start : List Char) : PVSeasonState :=
  match assignWeather w_limits run.sum with
  | some Weather.rainy =>
      { ps with rainy_runs := ps.rainy_runs ++ [run],
                rainy_runs_start_times := ps.rainy_runs_start_times ++ [start] }
  | some Weather.cloudy =>
      { ps with cloudy_runs := ps.cloudy_runs ++ [run],
                cloudy_runs_start_times := ps.cloudy_runs_start_times ++ [start] }
  | some Weather.partially_cloudy =>
      { ps with partially_cloudy_runs := ps.partially_cloudy_runs ++ [run],
                partially_cloudy_runs_start_times :=
                  ps.partially_cloudy_runs_start_times ++ [start] }
  | some Weather.sunny =>
      { ps with sunny_runs := ps.sunny_runs ++ [run],
                sunny_runs_start_times := ps.sunny_runs_start_times ++ [start] }
  | none => ps

/-- The run loop of Categorization_PV.assign_weather_types (lines 72-86),
walking the season's runs and their parallel start-time list. -/
def assignLoop (w_limits : List ℚ) :
    PVSeasonState → List (List ℚ) → List (List Char) → PVSeasonState
  | ps, run :: rest, start :: starts =>
      assignLoop w_limits (assignOne ps w_limits run start) rest starts
  | ps, _, _ => ps

/-- The body of Categorization_PV.assign_weather_types (lines 69-86) for one
PV_Season: derive the limits for 4 weather types and, when they exist, assign
every run; a season with no runs is left untouched. -/
def assign_weather_types_one (ps : PVSeasonState) : PVSeasonState :=
  match accumulated_weather_limits ps.runs 4 with
  | none => ps
  | some w_limits => assignLoop w_limits ps ps.runs ps.runs_start_times

/- ---------------------------------------------------------------------
models/Cluster.py and Classification_DW.py: cluster classification (C1, C5)
--------------------------------------------------------------------- -/

/-- models/Cluster.py: the four rectangle bounds, the two run lists and the
Mahalanobis threshold, initially 0. -/
structure Cluster where
  min_duration : ℚ
  max_duration : ℚ
  min_consumption : ℚ
  max_consumption : ℚ
  training_runs : List (List ℚ)
  classified_runs : List (List ℚ)
  mahalanobis_threshold : ℚ
deriving DecidableEq

/-- The rectangle membership test of the training loop
(Classification_DW.py line 268): duration is len(run), peak consumption is
max(run). Training runs read from the CSV files are non-empty, so the pyMax
junk value for [] is never observed. -/
def clusterAccepts (c : Cluster) (run : List ℚ) : Bool :=
  decide (c.min_duration ≤ (run.length : ℚ) ∧ (run.length : ℚ) ≤ c.max_duration) &&
  decide (c.min_consumption ≤ pyMax run ∧ pyMax run ≤ c.max_consumption)

/-- Replace the element at one index of a list, leaving the list unchanged
when the index is out of range. -/
def updateAt {α : Type} (f : α → α) : ℕ → List α → List α
  | _, [] => []
  | 0, c :: cs => f c :: cs
  | n + 1, c :: cs => c :: updateAt f n cs

/-- Index of the first element satisfying p, counting from i. -/
def firstIdxFrom {α : Type} (p : α → Bool) : ℕ → List α → Option ℕ
  | _, [] => none
  | i, c :: cs => if p c then some i else firstIdxFrom p (i + 1) cs

/-- One iteration of the training loop (Classification_DW.py lines 264-273):
the run goes to the training list of the first cluster whose rectangle
accepts it (the source collects all accepting clusters and appends to
assigned_clusters[0], which is that first cluster), or to the unclassified
list when no cluster accepts. -/
def trainingStep (clusters : List Cluster) (not_classified : List (List ℚ))
    (run : List ℚ) : List Cluster × List (List ℚ) :=
  match firstIdxFrom (fun c => clusterAccepts c run) 0 clusters with
  | none => (clusters, not_classified ++ [run])
  | some i =>
      (updateAt (fun c => { c with training_runs := c.training_runs ++ [run] }) i clusters,
       not_classified)

/-- The training-assignment phase (Classification_DW.py lines 264-273) over
all training runs. -/
def trainingPhase (clusters : List Cluster) (training : List (List ℚ)) :
    List Cluster × List (List ℚ) :=
  training.foldl (fun p run => trainingStep p.1 p.2 run) (clusters, [])

/-- The threshold-derivation phase (Classification_DW.py lines 276-280),
parametric in the Mahalanobis distance function (whose numerics live in
numpy/scipy): each cluster's threshold becomes the maximum self-distance of
its training runs. Python's max() raises ValueError on an empty sequence, so
a cluster with no training runs makes the phase fail: none. -/
def thresholdPhase (dist : List (List ℚ) → List ℚ → ℚ)
    (clusters : List Cluster) : Option (List Cluster) :=
  clusters.mapM (fun c =>
    match c.training_runs.map (fun run => dist c.training_runs run) with
    | [] => none
    | d :: ds => some { c with mahalanobis_threshold := ds.foldl max d })

/-- Pair every cluster with its index, starting from i. -/
def withIdx {α : Type} : ℕ → List α → List (ℕ × α)
  | _, [] => []
  | i, c :: cs => (i, c) :: withIdx (i + 1) cs

/-- The qualifying clusters of one verification run (Classification_DW.py
lines 284-288): those whose Mahalanobis threshold strictly exceeds the run's
distance to their training distribution, in cluster order. -/
def qualifying (dist : List (List ℚ) → List ℚ → ℚ) (clusters : List Cluster)
    (run : List ℚ) : List (ℕ × Cluster) :=
  (withIdx 0 clusters).filter
    (fun p => decide (dist p.2.training_runs run < p.2.mahalanobis_threshold))

/-- The cluster index chosen for one verification run (Classification_DW.py
lines 290-299): the single qualifying cluster, or among several the first
whose distance equals the minimum (min of the distances, then next() on the
first match). The fallback branch is unreachable: the minimum of a non-empty
list is attained. none means the run is not classified. -/
def chooseClusterIdx (dist : List (List ℚ) → List ℚ → ℚ)
    (clusters : List Cluster) (run : List ℚ) : Option ℕ :=
  match qualifying dist clusters run with
  | [] => none
  | [p] => some p.1
  | p :: q :: rest =>
      let smallest :=
        pyMin ((p :: q :: rest).map (fun x => dist x.2.training_runs run))
      match (p :: q :: rest).find?
          (fun x => decide (dist x.2.training_runs run = smallest)) with
      | some x => some x.1
      | none => some p.1

/-- One iteration of the verification loop (Classification_DW.py lines
283-299): append the run to the chosen cluster's classified list, or to the
unclassified list when no cluster qualifies. -/
def verificationStep (dist : List (List ℚ) → List ℚ → ℚ)
    (clusters : List Cluster) (not_classified : List (List ℚ))
    (run : List ℚ) : List Cluster × List (List ℚ) :=
  match chooseClusterIdx dist clusters run with
  | none => (clusters, not_classified ++ [run])
  | some i =>
      (updateAt (fun c => { c with classified_runs := c.classified_runs ++ [run] }) i clusters,
       not_classified)

/- ---------------------------------------------------------------------
Concrete inputs used by counterexamples and witnesses
--------------------------------------------------------------------- -/

/-- Build a PV sample from timestamp string literals. -/
def mkSample (cet utc : String) (p : ℚ) : PVSample := ⟨cet.toList, utc.toList, p⟩

/-- The local-midnight sample of 2019-06-01 that closes the day which began
at local midnight of 2019-05-31. -/
def exSampleJune : PVSample := mkSample "2019-06-01 00:00" "2019-05-31 22:00" 1

/-- First sample of the C2/C10 example stream: a noon sample, so the very
first midnight test finds a non-empty buffer. -/
def ex2Head : PVSample := mkSample "2019-05-30 12:00" "2019-05-30 10:00" 0

/-- Remaining samples of the C2/C10 example stream. -/
def ex2Tail : List PVSample :=
  [mkSample "2019-05-31 00:00" "2019-05-30 22:00" 0,
   mkSample "2019-05-31 12:00" "2019-05-31 10:00" 1,
   exSampleJune]

/-- A four-sample PV stream at 720-minute resolution (two samples per day).
The complete day starts at the local midnight sample of 2019-05-31 (May) and
is closed by the midnight sample of 2019-06-01 (June). -/
def ex2Samples : List PVSample := ex2Head :: ex2Tail

/-- A PV unit whose spring bucket is empty while summer holds one run. -/
def ex4State : PVState := { initPV with summer_runs := [[0, 1]] }

/-- One cluster with the rectangle of concrete scenario 3 of the spec
(duration 90-120 minutes, consumption 0.5-1.0 kWh) exactly as built by
Cluster.__init__, and one training run of duration 2 that the rectangle
rejects, leaving the cluster's training list empty. -/
def ex1Clusters : List Cluster :=
  [{ min_duration := 90, max_duration := 120, min_consumption := 1/2,
     max_consumption := 1, training_runs := [], classified_runs := [],
     mahalanobis_threshold := 0 }]

/-- Two trained clusters for the C5 witness, with thresholds 2 and 1. -/
def exC5Clusters : List Cluster :=
  [{ min_duration := 92, max_duration := 115, min_consumption := 67/100,
     max_consumption := 117/100, training_runs := [[1]], classified_runs := [],
     mahalanobis_threshold := 2 },
   { min_duration := 117, max_duration := 135, min_consumption := 4/5,
     max_consumption := 6/5, training_runs := [[2]], classified_runs := [],
     mahalanobis_threshold := 1 }]

/-- A concrete distance function for the C5 witness (scenario 4 of the spec):
distance 1.2 to the first cluster's distribution and 0.8 to the second. -/
def exC5Dist : List (List ℚ) → List ℚ → ℚ :=
  fun tr _ => if tr = [[1]] then 6/5 else 4/5

/- ---------------------------------------------------------------------
Helper lemmas
--------------------------------------------------------------------- -/

theorem foldl_max_init_le : ∀ (xs : List ℚ) (a : ℚ), a ≤ xs.foldl max a
  | [], _ => le_refl _
  | b :: bs, a =>
      le_trans (le_max_left a b) (foldl_max_init_le bs (max a b))

theorem foldl_max_le_of_mem :
    ∀ (xs : List ℚ) (a y : ℚ), y ∈ xs → y ≤ xs.foldl max a
  | b :: bs, a, y, h => by
      rcases List.mem_cons.mp h with h | h
      · subst h
        exact le_trans (le_max_right a y) (foldl_max_init_le bs (max a y))
      · exact foldl_max_le_of_mem bs (max a b) y h

theorem foldl_max_mem :
    ∀ (xs : List ℚ) (a : ℚ), xs.foldl max a = a ∨ xs.foldl max a ∈ xs
  | [], _ => Or.inl rfl
  | b :: bs, a => by
      rcases foldl_max_mem bs (max a b) with h | h
      · rcases max_choice a b with hm | hm
        · exact Or.inl (by rw [List.foldl_cons, h, hm])
        · exact Or.inr (by rw [List.foldl_cons, h, hm]; exact List.mem_cons_self b bs)
      · exact Or.inr (List.mem_cons_of_mem b h)

theorem le_foldl_min_init : ∀ (xs : List ℚ) (a : ℚ), xs.foldl min a ≤ a
  | [], _ => le_refl _
  | b :: bs, a =>
      le_trans (le_foldl_min_init bs (min a b)) (min_le_left a b)

theorem foldl_min_le_of_mem :
    ∀ (xs : List ℚ) (a y : ℚ), y ∈ xs → xs.foldl min a ≤ y
  | b :: bs, a, y, h => by
      rcases List.mem_cons.mp h with h | h
      · subst h
        exact le_trans (le_foldl_min_init bs (min a y)) (min_le_right a y)
      · exact foldl_min_le_of_mem bs (min a b) y h

theorem foldl_min_mem :
    ∀ (xs : List ℚ) (a : ℚ), xs.foldl min a = a ∨ xs.foldl min a ∈ xs
  | [], _ => Or.inl rfl
  | b :: bs, a => by
      rcases foldl_min_mem bs (min a b) with h | h
      · rcases min_choice a b with hm | hm
        · exact Or.inl (by rw [List.foldl_cons, h, hm])
        · exact Or.inr (by rw [List.foldl_cons, h, hm]; exact List.mem_cons_self b bs)
      · exact Or.inr (List.mem_cons_of_mem b h)

theorem le_pyMax (x : ℚ) (xs : List ℚ) (y : ℚ) (h : y ∈ x :: xs) :
    y ≤ pyMax (x :: xs) := by
  rcases List.mem_cons.mp h with h | h
  · subst h; exact foldl_max_init_le xs y
  · exact foldl_max_le_of_mem xs x y h

theorem pyMin_le (x : ℚ) (xs : List ℚ) (y : ℚ) (h : y ∈ x :: xs) :
    pyMin (x :: xs) ≤ y := by
  rcases List.mem_cons.mp h with h | h
  · subst h; exact le_foldl_min_init xs y
  · exact foldl_min_le_of_mem xs x y h

theorem pyMin_mem (x : ℚ) (xs : List ℚ) : pyMin (x :: xs) ∈ x :: xs := by
  rcases foldl_min_mem xs x with h | h
  · rw [pyMin, h]; exact List.mem_cons_self x xs
  · exact List.mem_cons_of_mem x h

theorem pyMin_le_pyMax (x : ℚ) (xs : List ℚ) : pyMin (x :: xs) ≤ pyMax (x :: xs) :=
  le_trans (pyMin_le x xs x (List.mem_cons_self x xs))
    (le_pyMax x xs x (List.mem_cons_self x xs))

theorem sumsFrom_diffsFrom : ∀ (xs : List ℚ) (a : ℚ), sumsFrom a (diffsFrom a xs) = xs
  | [], _ => rfl
  | x :: xs, a => by
      simp only [diffsFrom, sumsFrom]
      have h : a + (x - a) = x := by ring
      rw [h, sumsFrom_diffsFrom xs x]

theorem diffsFrom_sumsFrom : ∀ (xs : List ℚ) (a : ℚ), diffsFrom a (sumsFrom a xs) = xs
  | [], _ => rfl
  | x :: xs, a => by
      simp only [sumsFrom, diffsFrom]
      have h : a + x - a = x := by ring
      rw [h, diffsFrom_sumsFrom xs (a + x)]

theorem is_noise_cons_eq_some (v : ℚ) (vs : List ℚ) (m : ℚ) :
    ∃ b, is_noise (v :: vs) m = some b := by
  simp only [is_noise]
  split_ifs <;> exact ⟨_, rfl⟩

theorem splitLoop_isSome (minute_res : ℚ) (samples : List PVSample) :
    ∀ (current_run : List ℚ) (start_utc : Option (List Char)) (st : PVState),
      current_run ≠ [] →
      (splitLoop minute_res samples current_run start_utc st).isSome = true := by
  induction samples with
  | nil => intro current start st _; rfl
  | cons s rest ih =>
      intro current start st h
      match current, h with
      | v :: vs, _ =>
        simp only [splitLoop]
        by_cases hm : isMidnight s.cet
        · rw [if_pos hm]
          obtain ⟨b, hb⟩ := is_noise_cons_eq_some v vs minute_res
          rw [hb]
          exact ih [s.power] (some s.utc) _ (by simp)
        · rw [if_neg hm]
          exact ih (v :: vs ++ [s.power]) _ st (by simp)

/- ---------------------------------------------------------------------
Claim theorems
--------------------------------------------------------------------- -/

/-- C9: the cumulative and non-cumulative profile conversions of models/PV.py
are mutually inverse on every non-empty list of exact rational values. -/
theorem C9_cumulative_non_cumulative_roundtrip (p : List ℚ) (h : p ≠ []) :
    cumulative (non_cumulative p) = p ∧ non_cumulative (cumulative p) = p := by
  match p, h with
  | c :: cs, _ =>
    constructor
    · simp only [non_cumulative, cumulative]
      rw [sumsFrom_diffsFrom]
    · simp only [cumulative, non_cumulative]
      rw [diffsFrom_sumsFrom]

/-- Witness for C9 at the concrete profile [1, 2]. -/
theorem C9_roundtrip_witness :
    cumulative (non_cumulative [(1 : ℚ), 2]) = [(1 : ℚ), 2] ∧
    non_cumulative (cumulative [(1 : ℚ), 2]) = [(1 : ℚ), 2] :=
  C9_cumulative_non_cumulative_roundtrip [(1 : ℚ), 2] (by decide)

/-- C3 counterexample: on [0,0,0,1,2,3,3,3,0,0,0,0,1,1,1] with
max_pause_allowed = 2, min_duration = 2, max_rise = 10, the segmenter does
not produce [1,2,3,3,3] rebased to [0,1,2,2,2]: it appends only the samples
at change points, so the flat stretch 3,3,3 contributes a single value. -/
theorem C3_counterexample :
    shrink_runs (split_power_data [0, 0, 0, 1, 2, 3, 3, 3, 0, 0, 0, 0, 1, 1, 1] 2 2 10) ≠
      [[0, 1, 2, 2, 2]] := by with_unfolding_all decide

/-- C3 amended: the same input yields exactly one run, [0, 1, 2, 3] after
rebasing. The loop appends power_data[i] only when power_data[i] differs from
power_data[i+1], so the kept run holds the sample before the first rise and
each changing sample, while repeated flat values collapse; the trailing open
run is dropped at stream end. -/
theorem C3_single_run_change_points :
    shrink_runs (split_power_data [0, 0, 0, 1, 2, 3, 3, 3, 0, 0, 0, 0, 1, 1, 1] 2 2 10) =
      [[0, 1, 2, 3]] := by with_unfolding_all decide

/-- C1: a cluster whose training list is empty after the training-assignment
phase (the run of duration 2 lies outside the 90-120 x 0.5-1.0 rectangle, so
it lands in the unclassified list) does not leave the threshold at its
default 0: the threshold-derivation phase fails, because max() over the empty
distance list raises ValueError, whatever the Mahalanobis distance function
computes. The verification-classification phase is never reached. -/
theorem C1_empty_cluster_threshold_crash (dist : List (List ℚ) → List ℚ → ℚ) :
    (trainingPhase ex1Clusters [[0, 1]]).1 = ex1Clusters ∧
    (trainingPhase ex1Clusters [[0, 1]]).2 = [[0, 1]] ∧
    thresholdPhase dist ex1Clusters = none :=
  ⟨by with_unfolding_all decide, by with_unfolding_all decide, rfl⟩

/-- C4: normalize_and_plot_profiles is not a no-op on a PV unit whose spring
bucket is empty: the hours axis reads self.spring_runs[0] before the
empty-season guard, raising IndexError (none), although with a non-empty
spring bucket the remaining empty seasons are indeed left unchanged. -/
theorem C4_hours_axis_spring_crash :
    normalize_and_plot_profiles ex4State = none ∧
    normalize_and_plot_profiles { ex4State with spring_runs := [[0, 1]] } =
      some { ex4State with spring_runs := [[0, 1]] } := by with_unfolding_all decide

/-- C2 counterexample: in the four-sample stream ex2Samples the only
non-noise day starts at local midnight of 2019-05-31 (month 05, spring), yet
the run is appended to the summer bucket, because the code reads the month of
the sample closing the day (2019-06-01, month 06). -/
theorem C2_counterexample :
    (split_power_data_by_season ex2Samples 720).map PVState.spring_runs ≠ some [[0, 1]] ∧
    (split_power_data_by_season ex2Samples 720).map PVState.spring_runs = some [] ∧
    (split_power_data_by_season ex2Samples 720).map PVState.summer_runs = some [[0, 1]] := by
  with_unfolding_all decide

/-- C2 amended: at every midnight sample whose completed buffer passes the
noise predicate, the buffer is appended to the season bucket determined by
the calendar month of that closing midnight sample (the completed day's end
boundary, i.e. the new day's start), by the mapping 03-05 spring, 06-08
summer, 09-11 autumn, 12/01/02 winter, with its recorded UTC start time. -/
theorem C2_bucket_month_of_closing_sample (minute_res : ℚ) (s : PVSample)
    (rest : List PVSample) (current_run : List ℚ) (start_utc : Option (List Char))
    (st : PVState) (hmid : isMidnight s.cet = true)
    (hnoise : is_noise current_run minute_res = some false) :
    splitLoop minute_res (s :: rest) current_run start_utc st =
      splitLoop minute_res rest [s.power] (some s.utc)
        (appendByMonth st (pySlice s.cet 5 7) current_run (start_utc.getD s.utc)) := by
  simp [splitLoop, hmid, hnoise]

/-- Witness for C2 at the closing sample of 2019-06-01 with buffer [0, 1]. -/
theorem C2_bucket_month_witness :
    splitLoop 720 [exSampleJune] [0, 1] none initPV =
      splitLoop 720 [] [exSampleJune.power] (some exSampleJune.utc)
        (appendByMonth initPV (pySlice exSampleJune.cet 5 7) [0, 1]
          ((none : Option (List Char)).getD exSampleJune.utc)) :=
  C2_bucket_month_of_closing_sample 720 exSampleJune [] [0, 1] none initPV
    (by decide) (by with_unfolding_all decide)

/-- C10: is_noise reads run[0] before any length check, so the empty run hits
the IndexError branch (none); on any non-empty run it is total and performs
no out-of-bounds access (some); and day segmentation feeds it an empty buffer
exactly when the stream's first sample already has local time 00:00 - the
whole segmentation fails precisely in that case. -/
theorem C10_is_noise_empty_run (minute_res : ℚ) (samples : List PVSample)
    (s0 : PVSample) (rest : List PVSample) (h : samples = s0 :: rest) :
    is_noise [] minute_res = none ∧
    (∀ (v : ℚ) (vs : List ℚ), (is_noise (v :: vs) minute_res).isSome = true) ∧
    (split_power_data_by_season samples minute_res = none ↔ isMidnight s0.cet = true) := by
  subst h
  refine ⟨rfl, fun v vs => ?_, ?_, ?_⟩
  · obtain ⟨b, hb⟩ := is_noise_cons_eq_some v vs minute_res
    rw [hb]; rfl
  · intro hnone
    by_cases hm : isMidnight s0.cet
    · exact hm
    · exfalso
      have hstep : splitLoop minute_res (s0 :: rest) [] none initPV =
          splitLoop minute_res rest [s0.power] (some s0.utc) initPV := by
        simp [splitLoop, hm]
      rw [split_power_data_by_season, hstep, Option.map_eq_none'] at hnone
      have hsome := splitLoop_isSome minute_res rest [s0.power] (some s0.utc) initPV (by simp)
      rw [hnone] at hsome
      exact Bool.noConfusion hsome
  · intro hmid
    rw [split_power_data_by_season]
    have hz : splitLoop minute_res (s0 :: rest) [] none initPV = none := by
      simp [splitLoop, hmid, is_noise]
    rw [hz]; rfl

/-- Witness for C10 on the concrete stream ex2Samples, whose first sample is
a noon sample. -/
theorem C10_witness :
    is_noise [] 720 = none ∧
    (∀ (v : ℚ) (vs : List ℚ), (is_noise (v :: vs) (720 : ℚ)).isSome = true) ∧
    (split_power_data_by_season ex2Samples 720 = none ↔ isMidnight ex2Head.cet = true) :=
  C10_is_noise_empty_run 720 ex2Samples ex2Head ex2Tail rfl

/- ---------------------------------------------------------------------
Envelope lemmas for C8
--------------------------------------------------------------------- -/

theorem envelopeStep_length : ∀ (o r : List ℚ), r.length = o.length →
    (envelopeStep o r).length = o.length
  | o, [], _ => by cases o <;> rfl
  | a :: os, b :: rs, h => by
      simp only [envelopeStep, List.length_cons]
      rw [envelopeStep_length os rs (by simpa using h)]
  | [], b :: rs, h => by simp at h

theorem envelopeStep_getD (o : List ℚ) : ∀ (r : List ℚ) (j : ℕ),
    r.length = o.length → j < o.length →
    (envelopeStep o r).getD j 0 = max (o.getD j 0) (r.getD j 0) := by
  induction o with
  | nil => intro r j _ hj; exact absurd hj (by simp)
  | cons a os ih =>
      intro r j hr hj
      match r with
      | [] => simp at hr
      | b :: rs =>
        match j with
        | 0 =>
            simp only [envelopeStep, List.getD_cons_zero]
            rcases le_or_lt b a with hba | hba
            · rw [if_neg (not_lt.mpr hba), max_eq_left hba]
            · rw [if_pos hba, max_eq_right (le_of_lt hba)]
        | j + 1 =>
            simp only [envelopeStep, List.getD_cons_succ]
            exact ih rs j (by simpa using hr) (by simpa using hj)

theorem envelope_length (season : List (List ℚ)) : ∀ (first : List ℚ),
    (∀ r ∈ season, r.length = first.length) →
    (envelope season first).length = first.length := by
  induction season with
  | nil => intro first _; rfl
  | cons x xs ih =>
      intro first h
      have hx : x.length = first.length := h x (List.mem_cons_self x xs)
      have hstep : (envelopeStep first x).length = first.length :=
        envelopeStep_length first x hx
      have hrest : ∀ r ∈ xs, r.length = (envelopeStep first x).length := fun r hr => by
        rw [hstep]; exact h r (List.mem_cons_of_mem x hr)
      have henv : envelope (x :: xs) first = envelope xs (envelopeStep first x) := by
        simp [envelope]
      rw [henv, ih (envelopeStep first x) hrest, hstep]

theorem envelope_getD_ge (season : List (List ℚ)) : ∀ (first : List ℚ) (j : ℕ),
    (∀ r ∈ season, r.length = first.length) → j < first.length →
    first.getD j 0 ≤ (envelope season first).getD j 0 ∧
    ∀ r ∈ season, r.getD j 0 ≤ (envelope season first).getD j 0 := by
  induction season with
  | nil => intro first j _ _; exact ⟨le_refl _, by simp⟩
  | cons x xs ih =>
      intro first j h hj
      have hx : x.length = first.length := h x (List.mem_cons_self x xs)
      have hlen : (envelopeStep first x).length = first.length :=
        envelopeStep_length first x hx
      have hrest : ∀ r ∈ xs, r.length = (envelopeStep first x).length := fun r hr => by
        rw [hlen]; exact h r (List.mem_cons_of_mem x hr)
      have hj2 : j < (envelopeStep first x).length := by rw [hlen]; exact hj
      obtain ⟨h1, h2⟩ := ih (envelopeStep first x) j hrest hj2
      have hgd : (envelopeStep first x).getD j 0 = max (first.getD j 0) (x.getD j 0) :=
        envelopeStep_getD first x j hx hj
      have henv : envelope (x :: xs) first = envelope xs (envelopeStep first x) := by
        simp [envelope]
      rw [henv]
      refine ⟨le_trans ?_ h1, ?_⟩
      · rw [hgd]; exact le_max_left _ _
      · intro r hr
        rcases List.mem_cons.mp hr with hrx | hrxs
        · subst hrx
          exact le_trans (by rw [hgd]; exact le_max_right _ _) h1
        · exact h2 r hrxs

theorem envelope_getD_attained (season : List (List ℚ)) : ∀ (first : List ℚ) (j : ℕ),
    (∀ r ∈ season, r.length = first.length) → j < first.length →
    (envelope season first).getD j 0 = first.getD j 0 ∨
    ∃ r ∈ season, r.getD j 0 = (envelope season first).getD j 0 := by
  induction season with
  | nil => intro first j _ _; exact Or.inl rfl
  | cons x xs ih =>
      intro first j h hj
      have hx : x.length = first.length := h x (List.mem_cons_self x xs)
      have hlen : (envelopeStep first x).length = first.length :=
        envelopeStep_length first x hx
      have hrest : ∀ r ∈ xs, r.length = (envelopeStep first x).length := fun r hr => by
        rw [hlen]; exact h r (List.mem_cons_of_mem x hr)
      have hj2 : j < (envelopeStep first x).length := by rw [hlen]; exact hj
      have hgd : (envelopeStep first x).getD j 0 = max (first.getD j 0) (x.getD j 0) :=
        envelopeStep_getD first x j hx hj
      have henv : envelope (x :: xs) first = envelope xs (envelopeStep first x) := by
        simp [envelope]
      rcases ih (envelopeStep first x) j hrest hj2 with h1 | ⟨r, hr, hre⟩
      · rw [henv, h1, hgd]
        rcases max_cases (first.getD j 0) (x.getD j 0) with ⟨he, _⟩ | ⟨he, _⟩
        · exact Or.inl he
        · exact Or.inr ⟨x, List.mem_cons_self x xs, he.symm⟩
      · exact Or.inr ⟨r, List.mem_cons_of_mem x hr, by rw [henv]; exact hre⟩

theorem normalizeRun_getD (o : List ℚ) : ∀ (r : List ℚ) (j : ℕ),
    r.length = o.length → j < o.length →
    (normalizeRun r o).getD j 0 =
      if o.getD j 0 ≠ 0 then r.getD j 0 / o.getD j 0 else 0 := by
  induction o with
  | nil => intro r j _ hj; exact absurd hj (by simp)
  | cons a os ih =>
      intro r j hr hj
      match r with
      | [] => simp at hr
      | b :: rs =>
        match j with
        | 0 => simp only [normalizeRun, List.getD_cons_zero]
        | j + 1 =>
            simp only [normalizeRun, List.getD_cons_succ]
            exact ih rs j (by simpa using hr) (by simpa using hj)

/- ---------------------------------------------------------------------
Weather-limit lemmas for C6 and C7
--------------------------------------------------------------------- -/

theorem limitsTail_length : ∀ (k : ℕ) (a g : ℚ), (limitsTail a g k).length = k
  | 0, _, _ => rfl
  | k + 1, a, g => by simp [limitsTail, limitsTail_length k]

theorem limitsTail_getD : ∀ (k : ℕ) (a g : ℚ) (i : ℕ), i < k →
    (limitsTail a g k).getD i 0 = a + ((i : ℚ) + 1) * g
  | k + 1, a, g, 0, _ => by
      simp only [limitsTail, List.getD_cons_zero]
      push_cast
      ring
  | k + 1, a, g, i + 1, h => by
      simp only [limitsTail, List.getD_cons_succ]
      rw [limitsTail_getD k (a + g) g i (by omega)]
      push_cast
      ring

theorem getD_append_left : ∀ (l1 l2 : List ℚ) (i : ℕ), i < l1.length →
    (l1 ++ l2).getD i 0 = l1.getD i 0
  | a :: l1, _, 0, _ => rfl
  | a :: l1, l2, i + 1, h => by
      simp only [List.cons_append, List.getD_cons_succ]
      exact getD_append_left l1 l2 i (by simpa using h)
  | [], _, i, h => by simp at h

theorem getD_append_length : ∀ (l1 l2 : List ℚ), (l1 ++ l2).getD l1.length 0 = l2.getD 0 0
  | [], _ => rfl
  | a :: l1, l2 => by
      simp only [List.cons_append, List.length_cons, List.getD_cons_succ]
      exact getD_append_length l1 l2

theorem assignWeather_isSome (m M g s : ℚ) (hs1 : m ≤ s) (hs2 : s ≤ M) :
    ∃ w, assignWeather [m, m + g, m + g + g, m + g + g + g, M] s = some w := by
  simp only [assignWeather, List.getD_cons_zero, List.getD_cons_succ]
  by_cases h1 : s < m + g
  · exact ⟨Weather.rainy, by rw [if_pos ⟨hs1, h1⟩]⟩
  · by_cases h2 : s < m + g + g
    · refine ⟨Weather.cloudy, ?_⟩
      rw [if_neg (fun hc => h1 hc.2), if_pos ⟨not_lt.mp h1, h2⟩]
    · by_cases h3 : s < m + g + g + g
      · refine ⟨Weather.partially_cloudy, ?_⟩
        rw [if_neg (fun hc => h1 hc.2), if_neg (fun hc => h2 hc.2),
          if_pos ⟨not_lt.mp h2, h3⟩]
      · refine ⟨Weather.sunny, ?_⟩
        rw [if_neg (fun hc => h1 hc.2), if_neg (fun hc => h2 hc.2),
          if_neg (fun hc => h3 hc.2), if_pos ⟨not_lt.mp h3, hs2⟩]

/- ---------------------------------------------------------------------
Index lemmas for C5
--------------------------------------------------------------------- -/

theorem mem_withIdx {α : Type} : ∀ (l : List α) (k j : ℕ) (c : α),
    (j, c) ∈ withIdx k l → k ≤ j ∧ l.get? (j - k) = some c
  | [], _, _, _, h => absurd h (List.not_mem_nil _)
  | a :: l, k, j, c, h => by
      rcases List.mem_cons.mp h with he | ht
      · rw [Prod.mk.injEq] at he
        obtain ⟨rfl, rfl⟩ := he
        exact ⟨le_refl j, by simp⟩
      · obtain ⟨hk, hg⟩ := mem_withIdx l (k + 1) j c ht
        refine ⟨by omega, ?_⟩
        have hjk : j - k = (j - (k + 1)) + 1 := by omega
        rw [hjk]
        simpa using hg

/- ---------------------------------------------------------------------
Remaining claim theorems: C8, C6, C7, C5
--------------------------------------------------------------------- -/

/-- C8 counterexample: the season [[-2], [-1]] has runs of equal length and a
non-zero envelope at every index (the envelope is [-1]), yet after
normalization the maximum at index 0 is 2, not 1: dividing by a negative
envelope value flips the order. -/
theorem C8_counterexample :
    (∀ r ∈ ([[-2], [-1]] : List (List ℚ)), r.length = 1) ∧
    envelope [[-2], [-1]] [-2] = [-1] ∧
    (envelope [[-2], [-1]] [-2]).getD 0 0 ≠ 0 ∧
    normalizeSeason [[-2], [-1]] = [[2], [1]] ∧
    ¬ (∀ r ∈ normalizeSeason ([[-2], [-1]] : List (List ℚ)), r.getD 0 0 ≤ 1) := by
  with_unfolding_all decide

/-- C8 amended: for a season with at least one run, all runs of equal length,
and an envelope value that is positive (non-negative and non-zero) at the
sample index considered, the normalized values at that index are all at most
1 and some run attains exactly 1 - so their maximum is exactly 1.0. -/
theorem C8_normalized_max_one (r0 : List ℚ) (rs : List (List ℚ)) (j : ℕ)
    (hlen : ∀ r ∈ r0 :: rs, r.length = r0.length) (hj : j < r0.length)
    (hpos : 0 < (envelope (r0 :: rs) r0).getD j 0) :
    (∀ r ∈ normalizeSeason (r0 :: rs), r.getD j 0 ≤ 1) ∧
    (∃ r ∈ normalizeSeason (r0 :: rs), r.getD j 0 = 1) := by
  have hne : (envelope (r0 :: rs) r0).getD j 0 ≠ 0 := ne_of_gt hpos
  obtain ⟨hfirst, hub⟩ := envelope_getD_ge (r0 :: rs) r0 j hlen hj
  have hejlen : (envelope (r0 :: rs) r0).length = r0.length :=
    envelope_length (r0 :: rs) r0 hlen
  have hnorm : normalizeSeason (r0 :: rs) =
      (r0 :: rs).map (fun r => normalizeRun r (envelope (r0 :: rs) r0)) := rfl
  constructor
  · intro r' hr'
    rw [hnorm] at hr'
    obtain ⟨r, hrmem, rfl⟩ := List.mem_map.mp hr'
    rw [normalizeRun_getD (envelope (r0 :: rs) r0) r j
      (by rw [hejlen]; exact hlen r hrmem) (by rw [hejlen]; exact hj)]
    rw [if_pos hne]
    exact (div_le_one hpos).mpr (hub r hrmem)
  · have hat : ∃ r ∈ r0 :: rs, r.getD j 0 = (envelope (r0 :: rs) r0).getD j 0 := by
      rcases envelope_getD_attained (r0 :: rs) r0 j hlen hj with h | h
      · exact ⟨r0, List.mem_cons_self r0 rs, h.symm⟩
      · exact h
    obtain ⟨r, hrmem, hre⟩ := hat
    refine ⟨normalizeRun r (envelope (r0 :: rs) r0),
      by rw [hnorm]; exact List.mem_map_of_mem _ hrmem, ?_⟩
    rw [normalizeRun_getD (envelope (r0 :: rs) r0) r j
      (by rw [hejlen]; exact hlen r hrmem) (by rw [hejlen]; exact hj)]
    rw [if_pos hne, hre]
    exact div_self hne

/-- Witness for C8 on the season [[1, 2], [2, 1]], whose envelope is [2, 2],
at sample index 0. -/
theorem C8_normalized_max_one_witness :
    (∀ r ∈ normalizeSeason ([[1, 2], [2, 1]] : List (List ℚ)), r.getD 0 0 ≤ 1) ∧
    (∃ r ∈ normalizeSeason ([[1, 2], [2, 1]] : List (List ℚ)), r.getD 0 0 = 1) :=
  C8_normalized_max_one [1, 2] [[2, 1]] 0 (by with_unfolding_all decide)
    (by with_unfolding_all decide) (by with_unfolding_all decide)

/-- C6: for a non-empty season the derived limits bound every run's
accumulated sum (limits[0] <= sum <= limits[4]) and the if/elif chain assigns
every run exactly one of the four weather buckets; for an empty season no
limits are derived and assign_weather_types leaves the season untouched. -/
theorem C6_weather_totality (runs : List (List ℚ)) (L : List ℚ)
    (hL : accumulated_weather_limits runs 4 = some L) :
    (∀ r ∈ runs, L.getD 0 0 ≤ r.sum ∧ r.sum ≤ L.getD 4 0) ∧
    (∀ r ∈ runs, ∃! w, assignWeather L r.sum = some w) ∧
    accumulated_weather_limits ([] : List (List ℚ)) 4 = none ∧
    (∀ ps : PVSeasonState, ps.runs = [] → assign_weather_types_one ps = ps) := by
  have hnoop : ∀ ps : PVSeasonState, ps.runs = [] → assign_weather_types_one ps = ps := by
    intro ps hps
    simp [assign_weather_types_one, hps, accumulated_weather_limits]
  obtain ⟨r, rs, rfl⟩ : ∃ r' rs', runs = r' :: rs' := by
    cases runs with
    | nil => simp [accumulated_weather_limits] at hL
    | cons a l => exact ⟨a, l, rfl⟩
  simp only [accumulated_weather_limits, List.map_cons, limitsTail, List.cons_append,
    List.nil_append, Option.some.injEq] at hL
  subst hL
  set m := pyMin (r.sum :: rs.map List.sum) with hm
  set M := pyMax (r.sum :: rs.map List.sum) with hM
  set g := (M - m) / ((4 : ℕ) : ℚ) with hg
  refine ⟨?_, ?_, rfl, hnoop⟩
  · intro r' hr'
    have hmem : r'.sum ∈ r.sum :: rs.map List.sum := by
      simpa using List.mem_map_of_mem List.sum hr'
    constructor
    · show m ≤ r'.sum
      rw [hm]; exact pyMin_le _ _ _ hmem
    · show r'.sum ≤ M
      rw [hM]; exact le_pyMax _ _ _ hmem
  · intro r' hr'
    have hmem : r'.sum ∈ r.sum :: rs.map List.sum := by
      simpa using List.mem_map_of_mem List.sum hr'
    have hs1 : m ≤ r'.sum := by rw [hm]; exact pyMin_le _ _ _ hmem
    have hs2 : r'.sum ≤ M := by rw [hM]; exact le_pyMax _ _ _ hmem
    obtain ⟨w, hw⟩ := assignWeather_isSome m M g r'.sum hs1 hs2
    exact ⟨w, hw, fun y hy => Option.some.inj (hy.symm.trans hw)⟩

/-- Witness for C6 at four runs with accumulated sums 2, 4, 6, 8. -/
theorem C6_weather_totality_witness :
    (∀ r ∈ ([[2], [4], [6], [8]] : List (List ℚ)),
      ([2, 7/2, 5, 13/2, 8] : List ℚ).getD 0 0 ≤ r.sum ∧
      r.sum ≤ ([2, 7/2, 5, 13/2, 8] : List ℚ).getD 4 0) ∧
    (∀ r ∈ ([[2], [4], [6], [8]] : List (List ℚ)),
      ∃! w, assignWeather [2, 7/2, 5, 13/2, 8] r.sum = some w) ∧
    accumulated_weather_limits ([] : List (List ℚ)) 4 = none ∧
    (∀ ps : PVSeasonState, ps.runs = [] → assign_weather_types_one ps = ps) :=
  C6_weather_totality [[2], [4], [6], [8]] [2, 7/2, 5, 13/2, 8]
    (by with_unfolding_all decide)

/-- C7: for a non-empty list of runs and n_types >= 1, the derived limits are
the n_types + 1 values min, min + step, min + 2 step, ..., with the last
element exactly the maximum accumulated sum, where step is the range divided
by n_types; on sums 2, 4, 6, 8 with n_types = 4 they are [2, 3.5, 5, 6.5, 8]. -/
theorem C7_limits_formula (runs : List (List ℚ)) (n : ℕ) (hn : 1 ≤ n) (L : List ℚ)
    (hL : accumulated_weather_limits runs n = some L) :
    L.length = n + 1 ∧
    (∀ i : ℕ, i < n → L.getD i 0 =
      pyMin (runs.map List.sum) +
        (i : ℚ) * ((pyMax (runs.map List.sum) - pyMin (runs.map List.sum)) / (n : ℚ))) ∧
    L.getD n 0 = pyMax (runs.map List.sum) ∧
    accumulated_weather_limits [[2], [4], [6], [8]] 4 = some [2, 7/2, 5, 13/2, 8] := by
  have hconc : accumulated_weather_limits [[(2 : ℚ)], [4], [6], [8]] 4 =
      some [2, 7/2, 5, 13/2, 8] := by with_unfolding_all decide
  obtain ⟨r, rs, rfl⟩ : ∃ r' rs', runs = r' :: rs' := by
    cases runs with
    | nil => simp [accumulated_weather_limits] at hL
    | cons a l => exact ⟨a, l, rfl⟩
  obtain ⟨k, rfl⟩ : ∃ k, n = k + 1 := ⟨n - 1, by omega⟩
  simp only [accumulated_weather_limits, Option.some.injEq, Nat.add_sub_cancel] at hL
  subst hL
  set m := pyMin ((r :: rs).map List.sum) with hm
  set M := pyMax ((r :: rs).map List.sum) with hM
  set g := (M - m) / ((k + 1 : ℕ) : ℚ) with hg
  refine ⟨?_, ?_, ?_, hconc⟩
  · simp [limitsTail_length]
  · intro i hi
    match i with
    | 0 =>
        simp only [List.cons_append, List.getD_cons_zero]
        push_cast
        ring
    | i + 1 =>
        have hi2 : i < k := by omega
        simp only [List.cons_append, List.getD_cons_succ]
        rw [getD_append_left _ _ i (by rw [limitsTail_length]; exact hi2),
          limitsTail_getD k m g i hi2]
        push_cast
        ring
  · simp only [List.cons_append, List.getD_cons_succ]
    have hlt : (limitsTail m g k ++ [M]).getD (limitsTail m g k).length 0 = M :=
      getD_append_length _ _
    rw [limitsTail_length] at hlt
    exact hlt

/-- Witness for C7 at the four singleton runs with sums 2, 4, 6, 8 and
n_types = 4. -/
theorem C7_limits_formula_witness :
    ([2, 7/2, 5, 13/2, 8] : List ℚ).length = 4 + 1 ∧
    (∀ i : ℕ, i < 4 → ([2, 7/2, 5, 13/2, 8] : List ℚ).getD i 0 =
      pyMin (([[2], [4], [6], [8]] : List (List ℚ)).map List.sum) +
        (i : ℚ) * ((pyMax (([[2], [4], [6], [8]] : List (List ℚ)).map List.sum) -
          pyMin (([[2], [4], [6], [8]] : List (List ℚ)).map List.sum)) / ((4 : ℕ) : ℚ))) ∧
    ([2, 7/2, 5, 13/2, 8] : List ℚ).getD 4 0 =
      pyMax (([[2], [4], [6], [8]] : List (List ℚ)).map List.sum) ∧
    accumulated_weather_limits [[2], [4], [6], [8]] 4 = some [2, 7/2, 5, 13/2, 8] :=
  C7_limits_formula [[2], [4], [6], [8]] 4 (by norm_num) [2, 7/2, 5, 13/2, 8]
    (by with_unfolding_all decide)

/-- C5: whenever the verification loop appends a run to a cluster's
classified list (chooseClusterIdx returns index i and verificationStep
updates that cluster), the run's Mahalanobis distance to that cluster is
strictly below that cluster's threshold, and among all qualifying clusters
the chosen one has the smallest distance. -/
theorem C5_classified_within_threshold (dist : List (List ℚ) → List ℚ → ℚ)
    (clusters : List Cluster) (run : List ℚ) (not_classified : List (List ℚ)) (i : ℕ)
    (h : chooseClusterIdx dist clusters run = some i) :
    verificationStep dist clusters not_classified run =
      (updateAt (fun c => { c with classified_runs := c.classified_runs ++ [run] }) i clusters,
       not_classified) ∧
    ∃ c, clusters.get? i = some c ∧
      dist c.training_runs run < c.mahalanobis_threshold ∧
      ∀ q ∈ qualifying dist clusters run,
        dist c.training_runs run ≤ dist q.2.training_runs run := by
  refine ⟨by simp [verificationStep, h], ?_⟩
  have key : ∃ c, (i, c) ∈ qualifying dist clusters run ∧
      ∀ q ∈ qualifying dist clusters run,
        dist c.training_runs run ≤ dist q.2.training_runs run := by
    rcases hq : qualifying dist clusters run with _ | ⟨p, tail⟩
    · rw [chooseClusterIdx, hq] at h
      exact absurd h (by simp)
    · rcases tail with _ | ⟨q, rest⟩
      · rw [chooseClusterIdx, hq] at h
        obtain rfl : p.1 = i := Option.some.inj h
        refine ⟨p.2, by simp, ?_⟩
        intro q' hq'
        rcases List.mem_singleton.mp hq' with rfl
        exact le_refl _
      · rw [chooseClusterIdx, hq] at h
        simp only [] at h
        have hmem : pyMin ((p :: q :: rest).map (fun x => dist x.2.training_runs run)) ∈
            (p :: q :: rest).map (fun x => dist x.2.training_runs run) :=
          pyMin_mem _ _
        obtain ⟨y, hy, hyd⟩ := List.mem_map.mp hmem
        rcases hf : (p :: q :: rest).find? (fun x =>
            decide (dist x.2.training_runs run =
              pyMin ((p :: q :: rest).map (fun x => dist x.2.training_runs run)))) with _ | x
        · exfalso
          have hnone := List.find?_eq_none.mp hf y hy
          simp only [decide_eq_true_eq] at hnone
          exact hnone hyd
        · rw [hf] at h
          obtain rfl : x.1 = i := Option.some.inj h
          have hx_mem : x ∈ p :: q :: rest := List.mem_of_find?_eq_some hf
          have hx_d : dist x.2.training_runs run =
              pyMin ((p :: q :: rest).map (fun x => dist x.2.training_runs run)) := by
            have := List.find?_some hf
            simpa using this
          refine ⟨x.2, by simpa using hx_mem, ?_⟩
          intro q' hq'
          rw [hx_d]
          have hq'm := List.mem_map_of_mem (fun x => dist x.2.training_runs run) hq'
          simp only [List.map_cons] at hq'm ⊢
          exact pyMin_le _ _ _ hq'm
  obtain ⟨c, hcq, hcmin⟩ := key
  have hfil := List.mem_filter.mp hcq
  have hget := (mem_withIdx clusters 0 i c hfil.1).2
  simp only [Nat.sub_zero] at hget
  refine ⟨c, hget, ?_, hcmin⟩
  simpa using hfil.2

/-- Witness for C5: two clusters with thresholds 2 and 1, distances 1.2 and
0.8; both qualify and the run goes to the second, closer cluster. -/
theorem C5_classified_witness :
    verificationStep exC5Dist exC5Clusters [] [0] =
      (updateAt (fun c => { c with classified_runs := c.classified_runs ++ [[0]] }) 1 exC5Clusters,
       []) ∧
    ∃ c, exC5Clusters.get? 1 = some c ∧
      exC5Dist c.training_runs [0] < c.mahalanobis_threshold ∧
      ∀ q ∈ qualifying exC5Dist exC5Clusters [0],
        exC5Dist c.training_runs [0] ≤ exC5Dist q.2.training_runs [0] :=
  C5_classified_within_threshold exC5Dist exC5Clusters [0] [] 1
    (by with_unfolding_all decide)

end DataProcessing
